import Mathlib

/-
Verification of the subscription and delivery-dedup registry of the
xmtp-rss-bot repository.

The development shallowly embeds the two core source modules:

* `FifoSet<T>` (the bounded recency set): a JavaScript `Set` keeps its
  elements in insertion order, so the set is embedded as a `List α`
  (oldest first) together with the fixed `maxCapacity`.
* `ConversationManager` (subscription registry + dedup index): JavaScript
  `Map`s preserve key insertion order and `Map.set` on an existing key
  keeps the key's position, so each map is embedded as an association
  list with the corresponding update operations.

Identifiers in this program are ASCII strings (wallet addresses,
subreddit names, post ids); `toLowerCase` embeds JavaScript
`String.prototype.toLowerCase` character by character via `Char.toLower`.
File-system effects (load/save of the JSON snapshot) are modelled by
passing the parsed document, respectively the success of the write, as
explicit values.
-/

/-! ## FifoSet (src/fifo-set.ts) -/

structure FifoSet (α : Type) where
  items : List α
  maxCapacity : Nat
  deriving DecidableEq, Repr

namespace FifoSet

/-- Embeds `new FifoSet(maxCapacity)` (source default 100): the backing
`Set` starts empty. -/
def make {α : Type} (maxCapacity : Nat := 100) : FifoSet α :=
  { items := [], maxCapacity := maxCapacity }

/-- Embeds `FifoSet.add`: returns `false` without change when the item is
already a member; otherwise, when `size >= maxCapacity`, deletes the
oldest item provided the set is nonempty (`values().next().value` is
`undefined` exactly on an empty set), then appends the new item. -/
def add {α : Type} [DecidableEq α] (s : FifoSet α) (item : α) : FifoSet α × Bool :=
  if item ∈ s.items then (s, false)
  else
    let items1 :=
      if s.items.length ≥ s.maxCapacity then
        match s.items with
        | [] => ([] : List α)
        | _ :: rest => rest
      else s.items
    ({ s with items := items1 ++ [item] }, true)

/-- Embeds `FifoSet.has`. -/
def has {α : Type} [DecidableEq α] (s : FifoSet α) (item : α) : Bool :=
  item ∈ s.items

/-- Embeds `FifoSet.delete`: `Set.delete` removes the item when present
and reports whether it was present. -/
def del {α : Type} [DecidableEq α] (s : FifoSet α) (item : α) : FifoSet α × Bool :=
  if item ∈ s.items then ({ s with items := s.items.erase item }, true)
  else (s, false)

/-- Embeds `FifoSet.clear`. -/
def clear {α : Type} (s : FifoSet α) : FifoSet α :=
  { s with items := [] }

/-- Embeds the `size` getter. -/
def size {α : Type} (s : FifoSet α) : Nat :=
  s.items.length

/-- Embeds `FifoSet.serialize`: `Array.from` of a `Set` lists the
elements in insertion order, oldest first. -/
def serialize {α : Type} (s : FifoSet α) : List α :=
  s.items

/-- Helper for the replay loops: add each element of the list in order. -/
def addAll {α : Type} [DecidableEq α] (s : FifoSet α) (l : List α) : FifoSet α :=
  l.foldl (fun t x => (t.add x).1) s

/-- Embeds `FifoSet.deserialize` (source default capacity 100): builds a
fresh set of the given capacity and replays `add` over the items in
order. -/
def deserialize {α : Type} [DecidableEq α] (l : List α) (maxCapacity : Nat := 100) :
    FifoSet α :=
  addAll (make maxCapacity) l

end FifoSet

/-- One mutating operation of the `FifoSet` interface, used to state the
size invariant over arbitrary operation sequences. -/
inductive FifoOp (α : Type) where
  | add (x : α)
  | del (x : α)
  | clear
  deriving DecidableEq, Repr

/-- Applies one operation, keeping only the resulting set. -/
def FifoSet.applyOp {α : Type} [DecidableEq α] (s : FifoSet α) : FifoOp α → FifoSet α
  | .add x => (s.add x).1
  | .del x => (s.del x).1
  | .clear => s.clear

/-- Applies a sequence of operations from left to right. -/
def FifoSet.applyOps {α : Type} [DecidableEq α] (s : FifoSet α) (ops : List (FifoOp α)) :
    FifoSet α :=
  ops.foldl FifoSet.applyOp s

/-! ## JavaScript collections as association lists -/

/-- Embeds `Map.get` (`undefined` becomes `none`): the first entry with
the given key, in insertion order. -/
def mapGet {κ α : Type} [DecidableEq κ] (k : κ) : List (κ × α) → Option α
  | [] => none
  | (k', v) :: rest => if k' = k then some v else mapGet k rest

/-- Embeds `Map.set`: replaces the value in place when the key is
present (keeping its position), otherwise appends a new entry. -/
def mapSet {κ α : Type} [DecidableEq κ] (k : κ) (v : α) : List (κ × α) → List (κ × α)
  | [] => [(k, v)]
  | (k', v') :: rest => if k' = k then (k, v) :: rest else (k', v') :: mapSet k v rest

/-- Embeds `Map.delete` (result ignored by the source): removes the entry
with the given key. -/
def mapDelete {κ α : Type} [DecidableEq κ] (k : κ) : List (κ × α) → List (κ × α)
  | [] => []
  | (k', v') :: rest => if k' = k then rest else (k', v') :: mapDelete k rest

/-- Embeds `new Set(list)`: element insertion order with duplicates
dropped after their first occurrence. -/
def jsSetOfList {α : Type} [DecidableEq α] (l : List α) : List α :=
  l.foldl (fun acc x => if x ∈ acc then acc else acc ++ [x]) []

/-- Embeds `String.prototype.toLowerCase` on the ASCII identifiers this
program handles (addresses, subreddit names, post ids). -/
def toLowerCase (s : String) : String :=
  ⟨s.data.map Char.toLower⟩

/-! ## Reddit service (src/reddit-service.ts) -/

structure RedditPost where
  id : String
  title : String
  link : String
  contentSnippet : String
  pubDate : Option String
  author : String
  deriving DecidableEq, Repr

/-- JavaScript `\w`: ASCII letters, digits and underscore. -/
def isWordChar (c : Char) : Bool :=
  c.isAlpha || c.isDigit || c = '_'

/-- Maximal munch of `\w+`: fails on an empty match. -/
def takeWord1 (cs : List Char) : Option (List Char × List Char) :=
  let w := cs.takeWhile isWordChar
  if w.isEmpty then none else some (w, cs.dropWhile isWordChar)

/-- Matches a literal character sequence, returning the remainder. -/
def stripLit (lit : List Char) (cs : List Char) : Option (List Char) :=
  if lit.isPrefixOf cs then some (cs.drop lit.length) else none

/-- Matches `\w+\/comments\/\w+\/` after `reddit.com/r/`, returning the
part of capture group 1 it contributes (`\w+/comments/\w+`, without the
final slash). Both `\w+` are forced to their maximal munch because the
following literal starts with a non-word character. -/
def matchRedditTail (cs : List Char) : Option (List Char) := do
  let (w1, r1) ← takeWord1 cs
  let r2 ← stripLit (("/comments/").data) r1
  let (w2, r3) ← takeWord1 r2
  let _ ← stripLit (("/").data) r3
  pure (w1 ++ ("/comments/").data ++ w2)

/-- Matches `(?:\w+\.)?reddit\.com\/r\/` followed by the tail, returning
the capture-group-1 suffix from the host onward. As in the regex engine,
the alternative with the optional subdomain group present is tried
first; when the host alternatives overlap the with-subdomain one cannot
proceed past the `reddit.com` literal, so plain alternation is faithful
to backtracking. -/
def matchFromHost (cs : List Char) : Option (List Char) :=
  (do
    let (w, r1) ← takeWord1 cs
    let r2 ← stripLit (['.']) r1
    let r3 ← stripLit (("reddit.com/r/").data) r2
    let g ← matchRedditTail r3
    pure (w ++ '.' :: ("reddit.com/r/").data ++ g))
  <|>
  (do
    let r1 ← stripLit (("reddit.com/r/").data) cs
    let g ← matchRedditTail r1
    pure (("reddit.com/r/").data ++ g))

/-- Embeds `trimRedditUrl` of src/reddit-service.ts: matches the anchored
regex `^(https?:\/\/(?:\w+\.)?reddit\.com\/r\/\w+\/comments\/\w+)\/.*`
and returns capture group 1 on success, the original URL otherwise. The
trailing `.*` imposes no constraint (no end anchor). -/
def trimRedditUrl (url : String) : String :=
  let cs := url.data
  let matched : Option (List Char) :=
    (do
      let r ← stripLit (("https://").data) cs
      let g ← matchFromHost r
      pure (("https://").data ++ g))
    <|>
    (do
      let r ← stripLit (("http://").data) cs
      let g ← matchFromHost r
      pure (("http://").data ++ g))
  match matched with
  | some g => ⟨g⟩
  | none => url

/-- Embeds `formatRedditPost` of src/reddit-service.ts, the version
`ConversationManager` imports. `dateFmt` stands for the opaque
`new Date(d).toUTCString()` rendering, identical text in both copies. -/
def formatRedditPost (dateFmt : String → String) (post : RedditPost) : String :=
  let trimmedLink := trimRedditUrl post.link
  ("📰 ") ++ post.title ++ ("\n🔗 Link: ") ++ trimmedLink ++ ("\n") ++
    (match post.pubDate with
     | some d => ("⏰ Published: ") ++ dateFmt d
     | none => (""))

/-- Embeds the `formatRedditPost` copy at the end of
src/src/conversation-manager.ts, which interpolates `post.link` without
trimming. -/
def formatRedditPostCopy (dateFmt : String → String) (post : RedditPost) : String :=
  ("📰 ") ++ post.title ++ ("\n🔗 Link: ") ++ post.link ++ ("\n") ++
    (match post.pubDate with
     | some d => ("⏰ Published: ") ++ dateFmt d
     | none => (""))

/-! ## ConversationManager (src/conversation-manager.ts) -/

/-- Embeds the `UserData` persisted-snapshot shape: a JSON object's keys
are listed in insertion order, hence association lists. -/
structure UserData where
  subscriptions : List (String × List String)
  seenPosts : List (String × List String)
  deriving DecidableEq, Repr

/-- Embeds the mutable state of `ConversationManager`: the
address → subreddits subscription map and the subreddit → seen-post-ids
dedup index. -/
structure ConversationManager where
  userSubscriptions : List (String × List String)
  seenPostsBySubreddit : List (String × FifoSet String)
  deriving DecidableEq, Repr

namespace ConversationManager

/-- Empty state: both maps start empty. -/
def empty : ConversationManager :=
  { userSubscriptions := [], seenPostsBySubreddit := [] }

/-- Embeds `subscribeToSubreddit`: lowercases both identifiers, creates
the subscriber's set if absent, returns `false` when already subscribed,
otherwise appends the subreddit to the subscriber's set. (When the
subscriber was absent the source first stores an empty set and then adds
to it; the net effect is storing the one-element set.) -/
def subscribeToSubreddit (m : ConversationManager) (address subreddit : String) :
    ConversationManager × Bool :=
  let a := toLowerCase address
  let t := toLowerCase subreddit
  let subs := (mapGet a m.userSubscriptions).getD []
  if t ∈ subs then (m, false)
  else
    ({ m with userSubscriptions := mapSet a (subs ++ [t]) m.userSubscriptions }, true)

/-- Embeds `unsubscribeFromSubreddit`: returns `false` when the
subscriber has no such subscription; otherwise removes it, dropping the
subscriber entry entirely when its set becomes empty. -/
def unsubscribeFromSubreddit (m : ConversationManager) (address subreddit : String) :
    ConversationManager × Bool :=
  let a := toLowerCase address
  let t := toLowerCase subreddit
  match mapGet a m.userSubscriptions with
  | none => (m, false)
  | some subs =>
    if t ∈ subs then
      let subs1 := subs.erase t
      if subs1.isEmpty then
        ({ m with userSubscriptions := mapDelete a m.userSubscriptions }, true)
      else
        ({ m with userSubscriptions := mapSet a subs1 m.userSubscriptions }, true)
    else (m, false)

/-- Embeds `unsubscribeFromAllSubreddits`: returns `false` when the
subscriber has no entry or an empty set (leaving an empty entry in
place), otherwise deletes the entry. -/
def unsubscribeFromAllSubreddits (m : ConversationManager) (address : String) :
    ConversationManager × Bool :=
  let a := toLowerCase address
  match mapGet a m.userSubscriptions with
  | none => (m, false)
  | some subs =>
    if subs.isEmpty then (m, false)
    else ({ m with userSubscriptions := mapDelete a m.userSubscriptions }, true)

/-- Embeds `getUserSubscriptions`. -/
def getUserSubscriptions (m : ConversationManager) (address : String) : List String :=
  (mapGet (toLowerCase address) m.userSubscriptions).getD []

/-- Embeds `getSubscribersForSubreddit`: walks the subscription map in
insertion order and collects the stored addresses whose set contains the
normalized subreddit. -/
def getSubscribersForSubreddit (m : ConversationManager) (subreddit : String) :
    List String :=
  let t := toLowerCase subreddit
  m.userSubscriptions.filterMap (fun p => if t ∈ p.2 then some p.1 else none)

/-- Spec's `hasSeen` read-only lookup, a direct view of the dedup index
used to state seen-marking properties. -/
def hasSeen (m : ConversationManager) (subreddit postId : String) : Bool :=
  match mapGet (toLowerCase subreddit) m.seenPostsBySubreddit with
  | some fs => fs.has postId
  | none => false

/-- Embeds the state effect and result of `sendRedditPostToSubscribers`:
get-or-create the subreddit's capacity-50 window, return `false` when
the post id was seen, otherwise record it; then return `false` when the
subreddit has no subscribers and `true` after the fan-out. The actual
transport sends are external effects with no bearing on this state. -/
def sendRedditPostToSubscribers (m : ConversationManager) (post : RedditPost)
    (subreddit : String) : ConversationManager × Bool :=
  let t := toLowerCase subreddit
  let seenMap :=
    if (mapGet t m.seenPostsBySubreddit).isSome then m.seenPostsBySubreddit
    else mapSet t (FifoSet.make 50) m.seenPostsBySubreddit
  let seenPosts := (mapGet t seenMap).getD (FifoSet.make 50)
  if seenPosts.has post.id then
    ({ m with seenPostsBySubreddit := seenMap }, false)
  else
    let m1 : ConversationManager :=
      { m with seenPostsBySubreddit := mapSet t (seenPosts.add post.id).1 seenMap }
    let subscribers := m1.getSubscribersForSubreddit subreddit
    if subscribers.length = 0 then (m1, false)
    else (m1, true)

/-- Embeds the snapshot `saveUserData` serializes: each subscription set
via `Array.from`, each recency window via `serialize`. -/
def snapshot (m : ConversationManager) : UserData :=
  { subscriptions := m.userSubscriptions,
    seenPosts := m.seenPostsBySubreddit.map (fun p => (p.1, p.2.serialize)) }

/-- Embeds `saveUserData` with the success of `fs.writeFileSync` passed
as `fsOk`: the write failure is caught and logged inside the method, so
the caller observes no exception; the document written (if any) is
returned for reasoning about durable state. -/
def saveUserData (m : ConversationManager) (fsOk : Bool) : Option UserData :=
  if fsOk then some m.snapshot else none

/-- Embeds `subscribeToSubreddit` together with its synchronous
`saveUserData` call: on the mutating path the in-memory update happens
first, then the save is attempted and its outcome ignored. Returns the
new state, the reported result, and the document written (none when no
save ran or the write failed). -/
def subscribeToSubredditFS (fsOk : Bool) (m : ConversationManager)
    (address subreddit : String) : ConversationManager × Bool × Option UserData :=
  let a := toLowerCase address
  let t := toLowerCase subreddit
  let subs := (mapGet a m.userSubscriptions).getD []
  if t ∈ subs then (m, false, none)
  else
    let m1 : ConversationManager :=
      { m with userSubscriptions := mapSet a (subs ++ [t]) m.userSubscriptions }
    let written := m1.saveUserData fsOk
    (m1, true, written)

/-- Embeds the snapshot-loading part of `loadUserData` applied to a
parsed document: each subscription entry becomes a `Set` under the
lowercased address; each seen-post list is replayed into a
capacity-1000 `FifoSet` under the lowercased subreddit. -/
def loadUserData (d : UserData) : ConversationManager :=
  { userSubscriptions :=
      d.subscriptions.foldl
        (fun mm p => mapSet (toLowerCase p.1) (jsSetOfList p.2) mm) [],
    seenPostsBySubreddit :=
      d.seenPosts.foldl
        (fun mm p => mapSet (toLowerCase p.1) (FifoSet.deserialize p.2 1000) mm) [] }

/-- Outcome of reading the persistence file at startup: the file may be
missing, unparseable, or parse to a document. -/
inductive FileReadResult where
  | missing
  | malformed
  | parsed (d : UserData)
  deriving Repr

/-- Embeds `loadUserData` end to end: a missing file initializes and
writes an empty document; a malformed file is caught and logged, leaving
the in-memory maps empty; a parsed document is loaded. Totality of this
function is the no-throw guarantee; the second component is the document
written during load (only in the missing-file case). -/
def loadUserDataFromFile : FileReadResult → ConversationManager × Option UserData
  | .missing => (ConversationManager.empty, some { subscriptions := [], seenPosts := [] })
  | .malformed => (ConversationManager.empty, none)
  | .parsed d => (loadUserData d, none)

/-- Registry invariant of the spec: no subscriber is mapped to an empty
topic set. -/
def noEmptySubscriberEntries (m : ConversationManager) : Bool :=
  m.userSubscriptions.all (fun p => !p.2.isEmpty)

end ConversationManager

/-! ## Lemmas about FifoSet -/

namespace FifoSet

/-- Closed form of `add`: the inline match on the oldest element is the
list tail (an empty set evicts nothing, matching the `undefined` guard). -/
theorem add_def {α : Type} [DecidableEq α] (s : FifoSet α) (x : α) :
    s.add x =
      if x ∈ s.items then (s, false)
      else ({ s with items :=
        (if s.items.length ≥ s.maxCapacity then s.items.tail else s.items) ++ [x] },
        true) := by
  rcases s with ⟨items, cap⟩
  cases items <;> rfl

theorem add_fst_maxCapacity {α : Type} [DecidableEq α] (s : FifoSet α) (x : α) :
    ((s.add x).1).maxCapacity = s.maxCapacity := by
  rw [add_def]; split <;> rfl

theorem add_has_self {α : Type} [DecidableEq α] (s : FifoSet α) (x : α) :
    ((s.add x).1).has x = true := by
  rw [add_def]
  split
  · next h => simp [has, h]
  · simp [has]

theorem addAll_append {α : Type} [DecidableEq α] (s : FifoSet α) (l : List α) (x : α) :
    s.addAll (l ++ [x]) = ((s.addAll l).add x).1 := by
  simp [addAll, List.foldl_append]

theorem addAll_maxCapacity {α : Type} [DecidableEq α] (l : List α) (s : FifoSet α) :
    (s.addAll l).maxCapacity = s.maxCapacity := by
  induction l generalizing s with
  | nil => rfl
  | cons y ys ih =>
    show (((s.add y).1).addAll ys).maxCapacity = s.maxCapacity
    rw [ih ((s.add y).1), add_fst_maxCapacity]

/-- Replaying `add` over a duplicate-free list into a fresh set of
capacity `C ≥ 1` retains exactly the suffix of the last `C` elements. -/
theorem addAll_make_items {α : Type} [DecidableEq α] (C : Nat) (hC : 1 ≤ C)
    (l : List α) (hnd : l.Nodup) :
    ((FifoSet.make C : FifoSet α).addAll l).items = l.drop (l.length - C) := by
  induction l using List.reverseRecOn with
  | nil => simp [addAll, make]
  | append_singleton l x ih =>
    rw [List.nodup_append] at hnd
    have hl : l.Nodup := hnd.1
    have hx : x ∉ l := fun hmem => hnd.2.2 hmem (List.mem_singleton_self x)
    have hcap : ((make C : FifoSet α).addAll l).maxCapacity = C := addAll_maxCapacity l _
    have hitems := ih hl
    have hxitems : x ∉ ((make C : FifoSet α).addAll l).items := by
      rw [hitems]; exact fun hmem => hx (List.drop_subset _ l hmem)
    rw [addAll_append, add_def, if_neg hxitems]
    dsimp only
    rw [hitems, hcap, List.length_append, List.length_singleton]
    by_cases hlen : C ≤ l.length
    · have hlc : (l.drop (l.length - C)).length = C := by
        rw [List.length_drop, Nat.sub_sub_self hlen]
      rw [if_pos (by rw [hlc]), List.tail_drop]
      have h1 : l.length + 1 - C = (l.length - C) + 1 := by omega
      rw [h1, List.drop_append_of_le_length (by omega)]
    · have h0 : l.length - C = 0 := by omega
      have h1 : l.length + 1 - C = 0 := by omega
      rw [h0, h1, List.drop_zero, List.drop_zero, if_neg (show ¬l.length ≥ C by omega)]

/-- Replaying `add` over a duplicate-free list that fits within the
capacity reproduces the list exactly. -/
theorem addAll_make_of_le {α : Type} [DecidableEq α] (C : Nat) (l : List α)
    (hnd : l.Nodup) (hlen : l.length ≤ C) :
    (FifoSet.make C : FifoSet α).addAll l = ⟨l, C⟩ := by
  induction l using List.reverseRecOn with
  | nil => rfl
  | append_singleton l x ih =>
    rw [List.nodup_append] at hnd
    have hl : l.Nodup := hnd.1
    have hx : x ∉ l := fun hmem => hnd.2.2 hmem (List.mem_singleton_self x)
    have hlen' : l.length < C := by
      rw [List.length_append, List.length_singleton] at hlen; omega
    rw [addAll_append, ih hl (Nat.le_of_lt hlen'), add_def]
    dsimp only
    rw [if_neg hx, if_neg (by omega)]

theorem applyOp_maxCapacity {α : Type} [DecidableEq α] (s : FifoSet α) (op : FifoOp α) :
    (s.applyOp op).maxCapacity = s.maxCapacity := by
  cases op with
  | add x => exact add_fst_maxCapacity s x
  | del x =>
    show ((s.del x).1).maxCapacity = s.maxCapacity
    unfold del; split <;> rfl
  | clear => rfl

theorem size_applyOp_le {α : Type} [DecidableEq α] (s : FifoSet α) (op : FifoOp α)
    (hC : 1 ≤ s.maxCapacity) (h : s.size ≤ s.maxCapacity) :
    (s.applyOp op).size ≤ s.maxCapacity := by
  cases op with
  | add x =>
    show ((s.add x).1).size ≤ s.maxCapacity
    rw [add_def]
    split
    · exact h
    · dsimp only [size]
      rw [List.length_append, List.length_singleton]
      by_cases hlen : s.items.length ≥ s.maxCapacity
      · rw [if_pos hlen, List.length_tail]
        have : s.size = s.items.length := rfl
        omega
      · rw [if_neg hlen]
        have : s.size = s.items.length := rfl
        omega
  | del x =>
    show ((s.del x).1).size ≤ s.maxCapacity
    unfold del
    split
    · dsimp only [size]
      exact Nat.le_trans ((List.erase_sublist x s.items).length_le) h
    · exact h
  | clear =>
    show (0 : Nat) ≤ s.maxCapacity
    omega

theorem size_applyOps_le {α : Type} [DecidableEq α] (ops : List (FifoOp α))
    (s : FifoSet α) (hC : 1 ≤ s.maxCapacity) (h : s.size ≤ s.maxCapacity) :
    (s.applyOps ops).size ≤ s.maxCapacity := by
  induction ops generalizing s with
  | nil => exact h
  | cons op ops ih =>
    have h1 := size_applyOp_le s op hC h
    have h2 := applyOp_maxCapacity s op
    show ((s.applyOp op).applyOps ops).size ≤ s.maxCapacity
    rw [← h2]
    exact ih _ (by rw [h2]; exact hC) (by rw [h2]; exact h1)

end FifoSet

/-! ## Claims C1 to C4 -/

/-- C1: for every capacity C ≥ 1 and every sequence of N > C pairwise
distinct items added in order via `FifoSet.add` to a fresh set of
capacity C, the resulting membership is exactly the last C items of the
sequence, and `serialize` lists them in their original relative order
(the serialization is literally the length-C suffix of the input). -/
theorem fifoSet_add_retains_last_capacity_items (α : Type) [DecidableEq α]
    (C : Nat) (l : List α) (hC : 1 ≤ C) (hnd : l.Nodup) (hlen : C < l.length) :
    ((FifoSet.make C : FifoSet α).addAll l).serialize = l.drop (l.length - C)
    ∧ (l.drop (l.length - C)).length = C
    ∧ ∀ x : α, ((FifoSet.make C : FifoSet α).addAll l).has x = true ↔
        x ∈ l.drop (l.length - C) := by
  have hitems := FifoSet.addAll_make_items C hC l hnd
  refine ⟨hitems, ?_, ?_⟩
  · rw [List.length_drop, Nat.sub_sub_self (Nat.le_of_lt hlen)]
  · intro x
    show decide (x ∈ ((FifoSet.make C : FifoSet α).addAll l).items) = true ↔ _
    rw [hitems]
    simp

theorem fifoSet_add_retains_last_capacity_items_witness :
    1 ≤ 2 ∧ ([10, 20, 30, 40] : List Nat).Nodup ∧ 2 < 4 ∧
    ((FifoSet.make 2 : FifoSet Nat).addAll [10, 20, 30, 40]).serialize = [30, 40] := by
  have h := fifoSet_add_retains_last_capacity_items Nat 2 [10, 20, 30, 40]
    (by decide) (by decide) (by decide)
  exact ⟨by decide, by decide, by decide, h.1.trans (by decide)⟩

/-- C2 counterexample: the claim fails at capacity 0, which the
constructor accepts. A single `add` on the fresh capacity-0 set leaves
size 1 > 0, because the eviction path finds no oldest element to remove
and the insertion happens regardless. -/
theorem fifoSet_capacity_zero_breaks_size_bound :
    ¬ (((FifoSet.make 0 : FifoSet Nat).applyOps [FifoOp.add 5]).size ≤ 0) := by
  decide

/-- C2 (amended): for every capacity C ≥ 1, every sequence of add,
delete and clear operations applied to a fresh set of capacity C keeps
size ≤ C (every intermediate state is an instance over a prefix of the
sequence); add on a full set evicts exactly the single oldest member
before inserting, and add of an existing member changes nothing. -/
theorem fifoSet_invariants_amended (α : Type) [DecidableEq α] (C : Nat) (hC : 1 ≤ C) :
    (∀ ops : List (FifoOp α), ((FifoSet.make C : FifoSet α).applyOps ops).size ≤ C)
    ∧ (∀ (s : FifoSet α) (x : α), s.maxCapacity = C → s.size = C → s.has x = false →
        (s.add x).1.items = s.items.tail ++ [x] ∧ (s.add x).2 = true)
    ∧ (∀ (s : FifoSet α) (x : α), s.has x = true → s.add x = (s, false)) := by
  refine ⟨?_, ?_, ?_⟩
  · intro ops
    exact FifoSet.size_applyOps_le ops (FifoSet.make C) hC (Nat.zero_le C)
  · intro s x hcap hsize hx
    have hmem : x ∉ s.items := by simpa [FifoSet.has] using hx
    have hfull : s.items.length ≥ s.maxCapacity := by
      have : s.size = s.items.length := rfl
      omega
    rw [FifoSet.add_def, if_neg hmem, if_pos hfull]
    exact ⟨rfl, rfl⟩
  · intro s x hx
    have hmem : x ∈ s.items := by simpa [FifoSet.has] using hx
    rw [FifoSet.add_def, if_pos hmem]

theorem fifoSet_invariants_amended_witness :
    ((FifoSet.make 1 : FifoSet Nat).applyOps [FifoOp.add 1, FifoOp.add 2]).size ≤ 1 :=
  (fifoSet_invariants_amended Nat 1 (by decide)).1 [FifoOp.add 1, FifoOp.add 2]

/-- C3 counterexample: on a fresh capacity-0 set, add of a non-member
returns true and the item does become a member, contradicting the
claimed always-false, never-member behavior. -/
theorem fifoSet_capacity_zero_add_inserts :
    ((FifoSet.make 0 : FifoSet Nat).add 5).2 = true
    ∧ ((FifoSet.make 0 : FifoSet Nat).add 5).1.has 5 = true
    ∧ ((FifoSet.make 0 : FifoSet Nat).add 5).1.size = 1 := by
  decide

/-- C3 (amended): on a capacity-0 set, add of a non-member returns true,
evicts the current oldest member if one exists, and inserts the item as
a member; starting from at most one element the set then holds exactly
the newly added item, so size stays 1, not 0. -/
theorem fifoSet_capacity_zero_add_amended (α : Type) [DecidableEq α]
    (s : FifoSet α) (x : α) (hcap : s.maxCapacity = 0) (hx : s.has x = false) :
    (s.add x).2 = true
    ∧ (s.add x).1.items = s.items.tail ++ [x]
    ∧ (s.add x).1.has x = true
    ∧ (s.size ≤ 1 → (s.add x).1.items = [x]) := by
  have hmem : x ∉ s.items := by simpa [FifoSet.has] using hx
  have hfull : s.items.length ≥ s.maxCapacity := by omega
  refine ⟨?_, ?_, FifoSet.add_has_self s x, ?_⟩
  · rw [FifoSet.add_def, if_neg hmem]
  · rw [FifoSet.add_def, if_neg hmem, if_pos hfull]
  · intro hsize
    rw [FifoSet.add_def, if_neg hmem, if_pos hfull]
    dsimp only
    have htail : s.items.tail = [] := by
      cases hh : s.items with
      | nil => rfl
      | cons y ys =>
        have hys : ys = [] := by
          have h1 : (y :: ys).length ≤ 1 := by rw [← hh]; exact hsize
          simp only [List.length_cons] at h1
          exact List.length_eq_zero.mp (by omega)
        simp [hys]
    rw [htail, List.nil_append]

theorem fifoSet_capacity_zero_add_amended_witness :
    ((⟨[7], 0⟩ : FifoSet Nat).add 5).2 = true
    ∧ ((⟨[7], 0⟩ : FifoSet Nat).add 5).1.items = [5] := by
  have h := fifoSet_capacity_zero_add_amended Nat (⟨[7], 0⟩ : FifoSet Nat) 5
    (by decide) (by decide)
  exact ⟨h.1, h.2.2.2 (by decide)⟩

/-- C4: for every FifoSet with duplicate-free items (a JavaScript Set
cannot hold duplicates) whose serialized sequence fits within its
capacity C, deserializing the serialization with the same capacity
reproduces the set exactly: same membership, same oldest-first order,
same capacity. -/
theorem fifoSet_serialize_deserialize_roundtrip (α : Type) [DecidableEq α]
    (s : FifoSet α) (hnd : s.items.Nodup) (hlen : s.items.length ≤ s.maxCapacity) :
    FifoSet.deserialize s.serialize s.maxCapacity = s := by
  show (FifoSet.make s.maxCapacity : FifoSet α).addAll s.items = s
  rw [FifoSet.addAll_make_of_le s.maxCapacity s.items hnd hlen]

theorem fifoSet_serialize_deserialize_roundtrip_witness :
    ([3, 1, 2] : List Nat).Nodup ∧
    FifoSet.deserialize (FifoSet.serialize (⟨[3, 1, 2], 5⟩ : FifoSet Nat)) 5
      = (⟨[3, 1, 2], 5⟩ : FifoSet Nat) :=
  ⟨by decide,
    fifoSet_serialize_deserialize_roundtrip Nat (⟨[3, 1, 2], 5⟩ : FifoSet Nat)
      (by decide) (by decide)⟩

/-! ## Lemmas about the association-list maps -/

theorem mapGet_mapSet_self {κ α : Type} [DecidableEq κ] (k : κ) (v : α)
    (l : List (κ × α)) : mapGet k (mapSet k v l) = some v := by
  induction l with
  | nil => simp [mapGet, mapSet]
  | cons p rest ih =>
    rcases p with ⟨k', v'⟩
    by_cases h : k' = k
    · simp [mapSet, mapGet, h]
    · simp [mapSet, mapGet, h, ih]

theorem mapGet_eq_none {κ α : Type} [DecidableEq κ] (k : κ) (l : List (κ × α))
    (h : k ∉ l.map Prod.fst) : mapGet k l = none := by
  induction l with
  | nil => rfl
  | cons p rest ih =>
    rcases p with ⟨k', v'⟩
    simp only [List.map_cons, List.mem_cons, not_or] at h
    have hne : ¬k' = k := fun hk => h.1 hk.symm
    simp [mapGet, hne, ih h.2]

theorem mapGet_mapDelete_none {κ α : Type} [DecidableEq κ] (k : κ) (l : List (κ × α))
    (hnd : (l.map Prod.fst).Nodup) : mapGet k (mapDelete k l) = none := by
  induction l with
  | nil => rfl
  | cons p rest ih =>
    rcases p with ⟨k', v'⟩
    simp only [List.map_cons, List.nodup_cons] at hnd
    by_cases h : k' = k
    · subst h
      simp only [mapDelete, if_pos rfl]
      exact mapGet_eq_none k' rest hnd.1
    · simp [mapDelete, h, mapGet, ih hnd.2]

theorem all_mapSet {κ α : Type} [DecidableEq κ] (p : κ × α → Bool) (k : κ) (v : α)
    (l : List (κ × α)) (hl : l.all p = true) (hv : p (k, v) = true) :
    (mapSet k v l).all p = true := by
  induction l with
  | nil => simp [mapSet, hv]
  | cons q rest ih =>
    rcases q with ⟨k', v'⟩
    simp only [List.all_cons, Bool.and_eq_true] at hl
    by_cases h : k' = k
    · simp [mapSet, h, List.all_cons, hv, hl.2]
    · simp [mapSet, h, List.all_cons, hl.1, ih hl.2]

theorem all_mapDelete {κ α : Type} [DecidableEq κ] (p : κ × α → Bool) (k : κ)
    (l : List (κ × α)) (hl : l.all p = true) : (mapDelete k l).all p = true := by
  induction l with
  | nil => rfl
  | cons q rest ih =>
    rcases q with ⟨k', v'⟩
    simp only [List.all_cons, Bool.and_eq_true] at hl
    by_cases h : k' = k
    · simp [mapDelete, h, hl.2]
    · simp [mapDelete, h, List.all_cons, hl.1, ih hl.2]

theorem foldl_jsAdd_ne_nil {α : Type} [DecidableEq α] (l : List α) (acc : List α)
    (h : acc ≠ []) :
    l.foldl (fun acc x => if x ∈ acc then acc else acc ++ [x]) acc ≠ [] := by
  induction l generalizing acc with
  | nil => exact h
  | cons y ys ih =>
    show ys.foldl _ (if y ∈ acc then acc else acc ++ [y]) ≠ []
    apply ih
    split
    · exact h
    · simp

theorem jsSetOfList_ne_nil {α : Type} [DecidableEq α] (l : List α) (h : l ≠ []) :
    jsSetOfList l ≠ [] := by
  cases l with
  | nil => exact absurd rfl h
  | cons y ys =>
    show ys.foldl _ (if y ∈ ([] : List α) then [] else [] ++ [y]) ≠ []
    rw [if_neg (List.not_mem_nil y), List.nil_append]
    exact foldl_jsAdd_ne_nil ys [y] (by simp)

/-! ## Lemmas about ConversationManager -/

namespace ConversationManager

theorem subscribe_seenPosts (m : ConversationManager) (a t : String) :
    ((m.subscribeToSubreddit a t).1).seenPostsBySubreddit = m.seenPostsBySubreddit := by
  unfold subscribeToSubreddit
  dsimp only
  split <;> rfl

theorem hasSeen_congr (m1 m2 : ConversationManager)
    (h : m1.seenPostsBySubreddit = m2.seenPostsBySubreddit) (subreddit postId : String) :
    m1.hasSeen subreddit postId = m2.hasSeen subreddit postId := by
  unfold hasSeen
  rw [h]

theorem send_marks_seen (m : ConversationManager) (post : RedditPost)
    (subreddit : String) :
    ((m.sendRedditPostToSubscribers post subreddit).1).hasSeen subreddit post.id = true := by
  cases hg : mapGet (toLowerCase subreddit) m.seenPostsBySubreddit with
  | none =>
    simp only [sendRedditPostToSubscribers, hasSeen, hg, Option.isSome_none,
      Bool.false_eq_true, if_false, mapGet_mapSet_self, Option.getD_some]
    rw [if_neg (by simp [FifoSet.make, FifoSet.has])]
    simp only [apply_ite Prod.fst, ite_self, mapGet_mapSet_self]
    exact FifoSet.add_has_self _ _
  | some fs =>
    by_cases hhas : fs.has post.id = true
    · simp only [sendRedditPostToSubscribers, hasSeen, hg, Option.isSome_some, if_true,
        Option.getD_some, hhas, if_pos]
    · simp only [sendRedditPostToSubscribers, hasSeen, hg, Option.isSome_some, if_true,
        Option.getD_some, if_neg hhas]
      simp only [apply_ite Prod.fst, ite_self, mapGet_mapSet_self]
      exact FifoSet.add_has_self _ _

theorem send_snd_false_of_no_subscribers (m : ConversationManager) (post : RedditPost)
    (subreddit : String) (h : m.getSubscribersForSubreddit subreddit = []) :
    (m.sendRedditPostToSubscribers post subreddit).2 = false := by
  unfold sendRedditPostToSubscribers
  unfold getSubscribersForSubreddit at h ⊢
  dsimp only
  dsimp only at h
  rw [h]
  simp [apply_ite Prod.snd]

theorem send_snd_false_of_seen (m : ConversationManager) (post : RedditPost)
    (subreddit : String) (h : m.hasSeen subreddit post.id = true) :
    (m.sendRedditPostToSubscribers post subreddit).2 = false := by
  unfold hasSeen at h
  cases hg : mapGet (toLowerCase subreddit) m.seenPostsBySubreddit with
  | none => rw [hg] at h; exact absurd h (by simp)
  | some fs =>
    rw [hg] at h
    dsimp only at h
    simp [sendRedditPostToSubscribers, hg, h]

end ConversationManager

/-! ## Further list helpers for the registry invariant -/

theorem not_isEmpty_append_singleton {α : Type} (l : List α) (x : α) :
    (!(l ++ [x]).isEmpty) = true := by
  cases l <;> rfl

theorem not_isEmpty_of_ne_nil {α : Type} (l : List α) (h : l ≠ []) :
    (!l.isEmpty) = true := by
  cases l with
  | nil => exact absurd rfl h
  | cons y ys => rfl

theorem all_load_subscriptions (entries : List (String × List String))
    (acc : List (String × List String))
    (hacc : acc.all (fun p => !p.2.isEmpty) = true)
    (hentries : ∀ q ∈ entries, q.2 ≠ []) :
    (entries.foldl (fun mm q => mapSet (toLowerCase q.1) (jsSetOfList q.2) mm) acc).all
      (fun p => !p.2.isEmpty) = true := by
  induction entries generalizing acc with
  | nil => exact hacc
  | cons q qs ih =>
    show (qs.foldl _ (mapSet (toLowerCase q.1) (jsSetOfList q.2) acc)).all _ = true
    apply ih
    · apply all_mapSet _ _ _ _ hacc
      exact not_isEmpty_of_ne_nil _
        (jsSetOfList_ne_nil q.2 (hentries q (List.mem_cons_self q qs)))
    · intro q' hq'
      exact hentries q' (List.mem_cons_of_mem q hq')

/-! ## Claims C5 to C10 -/

/-- C5: identifiers are lowercased on entry and stored only in
lowercase. After `subscribeToSubreddit("0xABC", "golang")` on the empty
registry the stored subscription is exactly the lowercased pair, the
case-insensitive lookup `getSubscribersForSubreddit("GoLang")` returns
the normalized subscriber exactly once, and re-subscribing under any
casing is recognized as a duplicate, storing nothing in mixed case. -/
theorem subscribe_normalizes_and_lookup_case_insensitive :
    ((ConversationManager.empty.subscribeToSubreddit ("0xABC") ("golang")).1.userSubscriptions
      = [("0xabc", ["golang"])])
    ∧ ((ConversationManager.empty.subscribeToSubreddit ("0xABC") ("golang")).1.getSubscribersForSubreddit
        ("GoLang") = ["0xabc"])
    ∧ (((ConversationManager.empty.subscribeToSubreddit ("0xABC") ("golang")).1.getSubscribersForSubreddit
        ("GoLang")).count ("0xabc") = 1)
    ∧ (((ConversationManager.empty.subscribeToSubreddit ("0xABC") ("golang")).1.subscribeToSubreddit
        ("0XabC") ("GOLANG")).2 = false)
    ∧ (((ConversationManager.empty.subscribeToSubreddit ("0xABC") ("golang")).1.subscribeToSubreddit
        ("0XabC") ("GOLANG")).1.userSubscriptions = [("0xabc", ["golang"])]) := by
  decide

/-- C6: an offer on a topic with no subscribers returns "not sent" but
still records the item id as seen, so a later offer of the same id on
the same topic returns false even after a subscriber was added for that
topic in between. -/
theorem send_without_subscribers_marks_seen (m : ConversationManager) (post : RedditPost)
    (subreddit : String) (h : m.getSubscribersForSubreddit subreddit = []) :
    ((m.sendRedditPostToSubscribers post subreddit).2 = false)
    ∧ (((m.sendRedditPostToSubscribers post subreddit).1).hasSeen subreddit post.id = true)
    ∧ (∀ address : String,
        (((((m.sendRedditPostToSubscribers post subreddit).1).subscribeToSubreddit address
          subreddit).1).sendRedditPostToSubscribers post subreddit).2 = false) := by
  refine ⟨ConversationManager.send_snd_false_of_no_subscribers m post subreddit h,
    ConversationManager.send_marks_seen m post subreddit, ?_⟩
  intro address
  apply ConversationManager.send_snd_false_of_seen
  rw [ConversationManager.hasSeen_congr _ _
    (ConversationManager.subscribe_seenPosts ((m.sendRedditPostToSubscribers post subreddit).1)
      address subreddit)]
  exact ConversationManager.send_marks_seen m post subreddit

theorem send_without_subscribers_marks_seen_witness :
    (ConversationManager.empty.getSubscribersForSubreddit ("golang") = [])
    ∧ ((ConversationManager.empty.sendRedditPostToSubscribers
        ⟨("p1"), ("T"), ("L"), (""), none, ("a")⟩ ("golang")).2 = false)
    ∧ (((ConversationManager.empty.sendRedditPostToSubscribers
        ⟨("p1"), ("T"), ("L"), (""), none, ("a")⟩ ("golang")).1).hasSeen ("golang") ("p1") = true)
    ∧ ((((((ConversationManager.empty.sendRedditPostToSubscribers
        ⟨("p1"), ("T"), ("L"), (""), none, ("a")⟩ ("golang")).1).subscribeToSubreddit
        ("0xAB") ("golang")).1).sendRedditPostToSubscribers
        ⟨("p1"), ("T"), ("L"), (""), none, ("a")⟩ ("golang")).2 = false) := by
  have h := send_without_subscribers_marks_seen ConversationManager.empty
    ⟨("p1"), ("T"), ("L"), (""), none, ("a")⟩ ("golang") (by decide)
  exact ⟨by decide, h.1, h.2.1, h.2.2 ("0xAB")⟩

/-- C7 counterexample: loading a snapshot that maps a subscriber to an
empty topic list stores an empty-set entry, so the invariant does not
hold after every snapshot load. -/
theorem load_snapshot_creates_empty_entry :
    ((ConversationManager.loadUserData
      { subscriptions := [(("0xabc"), [])], seenPosts := [] }).userSubscriptions
      = [(("0xabc"), [])])
    ∧ ((ConversationManager.loadUserData
      { subscriptions := [(("0xabc"), [])], seenPosts := [] }).noEmptySubscriberEntries
      = false) := by
  decide

/-- C7 (amended): subscribe, unsubscribe and unsubscribe-all preserve
the invariant that no subscriber is mapped to an empty topic set, a
subscriber whose last topic is removed is deleted from the registry
entirely, and loading a snapshot preserves the invariant provided the
snapshot maps no subscriber to an empty topic list (which is the shape
save writes from any state satisfying the invariant); a snapshot with an
empty topic list does create an empty-set entry. -/
theorem registry_no_empty_entries_amended :
    (∀ (m : ConversationManager) (a t : String), m.noEmptySubscriberEntries = true →
      ((m.subscribeToSubreddit a t).1.noEmptySubscriberEntries = true))
    ∧ (∀ (m : ConversationManager) (a t : String), m.noEmptySubscriberEntries = true →
      ((m.unsubscribeFromSubreddit a t).1.noEmptySubscriberEntries = true))
    ∧ (∀ (m : ConversationManager) (a : String), m.noEmptySubscriberEntries = true →
      ((m.unsubscribeFromAllSubreddits a).1.noEmptySubscriberEntries = true))
    ∧ (∀ (m : ConversationManager) (a t : String),
      (m.userSubscriptions.map Prod.fst).Nodup →
      mapGet (toLowerCase a) m.userSubscriptions = some [toLowerCase t] →
      mapGet (toLowerCase a) ((m.unsubscribeFromSubreddit a t).1.userSubscriptions) = none)
    ∧ (∀ d : UserData, (∀ q ∈ d.subscriptions, q.2 ≠ []) →
      (ConversationManager.loadUserData d).noEmptySubscriberEntries = true) := by
  refine ⟨?_, ?_, ?_, ?_, ?_⟩
  · intro m a t h
    unfold ConversationManager.subscribeToSubreddit
    dsimp only
    split
    · exact h
    · exact all_mapSet _ _ _ _ h (not_isEmpty_append_singleton _ _)
  · intro m a t h
    unfold ConversationManager.unsubscribeFromSubreddit
    dsimp only
    split
    · exact h
    · split
      · split
        · exact all_mapDelete _ _ _ h
        · next hemp =>
          apply all_mapSet _ _ _ _ h
          simp only [Bool.not_eq_true] at hemp
          rw [hemp]
          rfl
      · exact h
  · intro m a h
    unfold ConversationManager.unsubscribeFromAllSubreddits
    dsimp only
    split
    · exact h
    · split
      · exact h
      · exact all_mapDelete _ _ _ h
  · intro m a t hnd hget
    unfold ConversationManager.unsubscribeFromSubreddit
    dsimp only
    rw [hget]
    dsimp only
    rw [if_pos (List.mem_singleton_self (toLowerCase t))]
    rw [show ([toLowerCase t].erase (toLowerCase t)) = [] from by simp]
    split
    · exact mapGet_mapDelete_none _ _ hnd
    · next hfalse => exact absurd rfl hfalse
  · intro d hd
    unfold ConversationManager.loadUserData ConversationManager.noEmptySubscriberEntries
    dsimp only
    exact all_load_subscriptions d.subscriptions [] rfl hd

theorem registry_no_empty_entries_amended_witness :
    ((ConversationManager.loadUserData
      { subscriptions := [(("0xAbc"), [("golang")])], seenPosts := [] }).noEmptySubscriberEntries
      = true)
    ∧ ((ConversationManager.unsubscribeFromSubreddit
      { userSubscriptions := [(("0xabc"), [("golang")])], seenPostsBySubreddit := [] }
      ("0xABC") ("GoLang")).1.noEmptySubscriberEntries = true)
    ∧ (mapGet (toLowerCase ("0xABC"))
      ((ConversationManager.unsubscribeFromSubreddit
        { userSubscriptions := [(("0xabc"), [("golang")])], seenPostsBySubreddit := [] }
        ("0xABC") ("GoLang")).1.userSubscriptions) = none) :=
  ⟨registry_no_empty_entries_amended.2.2.2.2
      { subscriptions := [(("0xAbc"), [("golang")])], seenPosts := [] } (by decide),
    registry_no_empty_entries_amended.2.1
      { userSubscriptions := [(("0xabc"), [("golang")])], seenPostsBySubreddit := [] }
      ("0xABC") ("GoLang") (by decide),
    registry_no_empty_entries_amended.2.2.2.1
      { userSubscriptions := [(("0xabc"), [("golang")])], seenPostsBySubreddit := [] }
      ("0xABC") ("GoLang") (by decide) (by decide)⟩

/-- C8: loading the persisted snapshot never throws to the caller (the
embedding of the guarded load is a total function over the three file
outcomes); a missing file initializes and writes an empty document, and
a malformed file leaves both in-memory maps empty after the failure is
logged. -/
theorem load_missing_or_malformed_degrades_to_empty :
    (ConversationManager.loadUserDataFromFile ConversationManager.FileReadResult.missing
      = (ConversationManager.empty, some { subscriptions := [], seenPosts := [] }))
    ∧ (ConversationManager.loadUserDataFromFile ConversationManager.FileReadResult.malformed
      = (ConversationManager.empty, none))
    ∧ ConversationManager.empty.userSubscriptions = []
    ∧ ConversationManager.empty.seenPostsBySubreddit = [] :=
  ⟨rfl, rfl, rfl, rfl⟩

/-- C9: when the synchronous save of the mutating subscribe fails, the
in-memory mutation is not rolled back and the reported result is the
same as on a successful save — the state and result agree with the pure
operation for both save outcomes — while no document is written on
failure, leaving durable state behind memory. -/
theorem save_failure_keeps_memory_mutation (m : ConversationManager)
    (address subreddit : String) :
    ((ConversationManager.subscribeToSubredditFS false m address subreddit).1
      = (m.subscribeToSubreddit address subreddit).1)
    ∧ ((ConversationManager.subscribeToSubredditFS false m address subreddit).2.1
      = (m.subscribeToSubreddit address subreddit).2)
    ∧ ((ConversationManager.subscribeToSubredditFS false m address subreddit).2.2 = none)
    ∧ ((ConversationManager.subscribeToSubredditFS true m address subreddit).1
      = (m.subscribeToSubreddit address subreddit).1)
    ∧ ((ConversationManager.subscribeToSubredditFS true m address subreddit).2.1
      = (m.subscribeToSubreddit address subreddit).2) := by
  by_cases hc : toLowerCase subreddit ∈ (mapGet (toLowerCase address) m.userSubscriptions).getD []
  · simp [ConversationManager.subscribeToSubredditFS, ConversationManager.subscribeToSubreddit, hc]
  · simp [ConversationManager.subscribeToSubredditFS, ConversationManager.subscribeToSubreddit,
      ConversationManager.saveUserData, hc]

/-- C10 counterexample: the imported `formatRedditPost` trims the Reddit
comments link while the copy embedded in the conversation manager file
interpolates the raw link, so the outputs differ on a trimmable link. -/
theorem formatRedditPost_copies_differ :
    formatRedditPost id
      { id := ("i1"), title := ("T"),
        link := ("https://www.reddit.com/r/golang/comments/abc123/some_title/"),
        contentSnippet := (""), pubDate := none, author := ("a") }
    ≠ formatRedditPostCopy id
      { id := ("i1"), title := ("T"),
        link := ("https://www.reddit.com/r/golang/comments/abc123/some_title/"),
        contentSnippet := (""), pubDate := none, author := ("a") } := by
  decide

/-- C10 (amended): the imported `formatRedditPost` equals the embedded
copy applied to the post with its link replaced by the trimmed link;
consequently the two definitions agree exactly on posts whose link the
URL trimming leaves unchanged (links not matching the Reddit
comments-URL pattern), and differ on trimmable links. -/
theorem formatRedditPost_agrees_modulo_trim (dateFmt : String → String) (post : RedditPost) :
    (formatRedditPost dateFmt post
      = formatRedditPostCopy dateFmt { post with link := trimRedditUrl post.link })
    ∧ (trimRedditUrl post.link = post.link →
        formatRedditPost dateFmt post = formatRedditPostCopy dateFmt post) := by
  constructor
  · rfl
  · intro h
    unfold formatRedditPost formatRedditPostCopy
    dsimp only
    rw [h]

theorem formatRedditPost_agrees_modulo_trim_witness :
    (trimRedditUrl ("https://example.com/x") = ("https://example.com/x"))
    ∧ (formatRedditPost id
        { id := ("i"), title := ("T"), link := ("https://example.com/x"),
          contentSnippet := (""), pubDate := none, author := ("a") }
      = formatRedditPostCopy id
        { id := ("i"), title := ("T"), link := ("https://example.com/x"),
          contentSnippet := (""), pubDate := none, author := ("a") }) :=
  ⟨by decide,
    (formatRedditPost_agrees_modulo_trim id
      { id := ("i"), title := ("T"), link := ("https://example.com/x"),
        contentSnippet := (""), pubDate := none, author := ("a") }).2 (by decide)⟩
